import Mathlib

/-!
Verification of the RAG core of the streamlitAI repository.

This file gives a shallow embedding of the retrieval-augmented question
answering core found in `Finalapp.py` and `app.py`:

* the answer synthesizer `get_answer_with_source` / `get_answer` with its
  relevance sufficiency gate (distance threshold 1.5),
* the prompt construction (context block, question, instruction block,
  answer cue),
* the chunker configuration (chunk_size 700, chunk_overlap 100, separator
  priority paragraph break, line break, space, character boundary),
* the embedding-record identifier scheme `<filename>_chunk_<index>`,
* the collection store (reset, add with duplicate rejection),
* the bounded search history and the upload batch processing loop.

External collaborators (the embedding model, the generation model, the
nearest-neighbour search of chromadb and the langchain text splitter) are
either taken as function parameters or modelled from the specification;
each such definition carries a doc comment saying so.  Distances are
modelled as rationals, Python strings as Lean strings (lists of
characters), Python dicts as association lists.
-/

/-- Metadata stored with each chunk by `add_text_to_chromadb`
(`Finalapp.py` lines 285-289): the owning filename, the ordinal chunk
index and the chunk length.  The filename is optional because the reading
side accesses it with `dict.get` and a default. -/
structure ChunkMetadata where
  filename : Option String
  chunk_index : Nat
  chunk_size : Nat
deriving DecidableEq

/-- Result of `collection.query(query_texts=[question], n_results=3)` as
unpacked by `get_answer_with_source` (`Finalapp.py` lines 368-377): the
parallel ranked lists of chunk texts, distances (ascending, lower is more
similar), record identifiers and metadata. -/
structure QueryResult where
  documents : List String
  distances : List ℚ
  ids : List String
  metadatas : List ChunkMetadata
deriving DecidableEq

/-- Python `min` on a list of numbers; the code only evaluates it on
nonempty lists (the empty case is short-circuited by `not docs`). -/
def pyMin : List ℚ → ℚ
  | [] => 0
  | d :: ds => ds.foldl min d

/-- Decimal digit character, the model of how Python renders one digit of
a nonnegative integer. -/
def decimalDigitChar : Nat → Char
  | 0 => '0'
  | 1 => '1'
  | 2 => '2'
  | 3 => '3'
  | 4 => '4'
  | 5 => '5'
  | 6 => '6'
  | 7 => '7'
  | 8 => '8'
  | _ => '9'

/-- Fuelled decimal printer; the fuel only serves to make the recursion
structural, `decimalDigits` supplies enough of it. -/
def decimalDigitsAux : Nat → Nat → List Char
  | 0, _ => []
  | fuel + 1, n =>
    if n < 10 then [decimalDigitChar n]
    else decimalDigitsAux fuel (n / 10) ++ [decimalDigitChar (n % 10)]

/-- Decimal digit list of a natural number, most significant first. -/
def decimalDigits (n : Nat) : List Char :=
  decimalDigitsAux (n + 1) n

/-- Model of Python `str(i)` for a nonnegative integer `i`, as used by the
f-strings of the source. -/
def natToString (n : Nat) : String :=
  String.mk (decimalDigits n)

/-- Lookup of `metadatas[i].get('filename', 'unknown')` as in the context
construction of `get_answer_with_source` (`Finalapp.py` line 388). -/
def metadataFilename (metadatas : List ChunkMetadata) (i : Nat) : String :=
  ((metadatas.get? i).bind ChunkMetadata.filename).getD ("unknown")

/-- Context block built when metadata is available (`Finalapp.py`
lines 385-390): each retrieved chunk rendered as
`Document i+1 (from filename): chunk`, joined with blank lines in
retrieval rank order. -/
def contextWithSources (docs : List String) (metadatas : List ChunkMetadata) : String :=
  String.intercalate "\n\n"
    (docs.enum.map (fun p =>
      "Document " ++ natToString (p.1 + 1) ++ " (from " ++
        metadataFilename metadatas p.1 ++ "): " ++ p.2))

/-- Context block built without metadata (`Finalapp.py` line 393,
`app.py` line 70). -/
def contextPlain (docs : List String) : String :=
  String.intercalate "\n\n"
    (docs.enum.map (fun p => "Document " ++ natToString (p.1 + 1) ++ ": " ++ p.2))

/-- The instruction block of the prompt (`Finalapp.py` lines 397-404). -/
def instructionBlock : String :=
  "Instructions: Answer ONLY using the information provided above. If the answer is not in the context, respond with \"I don\x27t know.\" Do not add information from outside the context."

/-- The prompt f-string of `get_answer` / `get_answer_with_source`:
context block, literal question, instruction block, answer cue, in this
fixed order. -/
def buildPrompt (context question : String) : String :=
  "Context information:\n" ++ context ++ "\n\nQuestion: " ++ question ++
    "\n\n" ++ instructionBlock ++ "\n\nAnswer:"

/-- The context chosen by `get_answer_with_source` and `Finalapp.get_answer`:
with source labels when metadata is present, plain otherwise. -/
def chooseContext (res : QueryResult) : String :=
  if res.metadatas ≠ [] then contextWithSources res.documents res.metadatas
  else contextPlain res.documents

/-- Source attribution of `get_answer_with_source` STEP 8 (`Finalapp.py`
lines 413-421): the filename of the rank-0 metadata when metadata exists,
otherwise a fallback that parses the rank-0 identifier. -/
def bestSource (res : QueryResult) : String :=
  if res.metadatas ≠ [] then
    ((res.metadatas.head?).bind ChunkMetadata.filename).getD ("Unknown source")
  else if res.ids ≠ [] then
    (((res.ids.headD ("")).splitOn ("_chunk_")).headD ("Unknown source"))
  else ("Unknown source")

/-- Shallow embedding of `get_answer_with_source` (`Finalapp.py`
lines 357-424).  The nearest-neighbour query itself is external
(chromadb plus the sentence-transformer embedder), so the function takes
the query result as input; the generation model
(`pipeline("text2text-generation", ...)`) is the parameter `gen`. -/
def get_answer_with_source (gen : String → String) (res : QueryResult)
    (question : String) : String × String :=
  if res.documents = [] ∨ pyMin res.distances > 3 / 2 then
    ("I cannot answer this question based on the uploaded documents.", "No source")
  else
    let prompt := buildPrompt (chooseContext res) question
    let answer := (gen prompt).trim
    (answer, bestSource res)

/-- Shallow embedding of `Finalapp.get_answer` (`Finalapp.py`
lines 304-351), which returns the answer only. -/
def get_answer (gen : String → String) (res : QueryResult)
    (question : String) : String :=
  if res.documents = [] ∨ pyMin res.distances > 3 / 2 then
    "I cannot answer this question based on the uploaded documents."
  else
    (gen (buildPrompt (chooseContext res) question)).trim

/-- Shallow embedding of `app.get_answer` (`app.py` lines 43-99): same
gate and prompt structure, plain context, different refusal sentence. -/
def get_answer_app (gen : String → String) (res : QueryResult)
    (question : String) : String :=
  if res.documents = [] ∨ pyMin res.distances > 3 / 2 then
    "I cannot answer this question with my knowledge."
  else
    (gen (buildPrompt (contextPlain res.documents) question)).trim

/-- Rendering of an evidence list, written the way the specification
describes it (section 4.5 step 1): the evidence is an ordered list of
(chunk text, source filename) pairs and each entry is rendered as
`Document i (from filename): chunk`, joined with blank lines.  Used to
state the refinement between code and specification in claim C3. -/
def renderEvidenceBlock (evidence : List (String × String)) : String :=
  String.intercalate "\n\n"
    (evidence.enum.map (fun p =>
      "Document " ++ natToString (p.1 + 1) ++ " (from " ++ p.2.2 ++ "): " ++ p.2.1))

/-- Splitter worker: cuts a character list at every occurrence of the
(nonempty) separator, dropping the separator. -/
def splitGo (sep : List Char) (acc : List Char) (t : List Char) : List (List Char) :=
  match t with
  | [] => [acc.reverse]
  | c :: cs =>
    if h : sep ≠ [] ∧ sep.isPrefixOf (c :: cs) then
      acc.reverse :: splitGo sep [] (List.drop sep.length (c :: cs))
    else
      splitGo sep (c :: acc) cs
termination_by t.length
decreasing_by
  · simp only [List.length_drop]
    have hlen : 1 ≤ sep.length := by
      cases sep with
      | nil => exact absurd rfl h.1
      | cons x xs => simp
    simp only [List.length_cons]
    omega
  · simp

/-- Split a text at a separator, the character-boundary separator `[]`
splitting into single characters; empty pieces are discarded (the spec
demands that no chunk is the empty string). -/
def splitBySeparator (sep : List Char) (t : List Char) : List (List Char) :=
  if sep = [] then t.map (fun c => [c])
  else (splitGo sep [] t).filter (fun p => p ≠ [])

/-- Modelled from the spec: the recursive-splitting phase of the Chunker
(section 4.1).  The chunker used by `add_text_to_chromadb` is langchain
`RecursiveCharacterTextSplitter`, an external library whose source is not
under `src/`; following the spec, a piece that already fits in
`chunk_size` is kept, otherwise it is cut at the highest-priority
separator and the resulting pieces are handled with the remaining
separators.  With no separator left the piece is kept as an atomic
segment. -/
def splitSegments (chunk_size : Nat) : List (List Char) → List Char → List (List Char)
  | [], t => [t]
  | sep :: rest, t =>
    if t.length ≤ chunk_size then [t]
    else (splitBySeparator sep t).bind (splitSegments chunk_size rest)

/-- Last `n` characters of a piece, used for the overlap carried from one
chunk into the next. -/
def takeLast (n : Nat) (l : List Char) : List Char :=
  l.drop (l.length - n)

/-- Modelled from the spec: the merging phase of the Chunker
(section 4.1).  Consecutive segments are packed greedily into chunks of
at most `chunk_size` characters and each new chunk starts with an
overlap of at most `chunk_overlap` characters taken from the end of the
previous one (trimmed so that the new chunk still fits). -/
def mergeSegments (chunk_size chunk_overlap : Nat) (cur : List Char) :
    List (List Char) → List (List Char)
  | [] => if cur = [] then [] else [cur]
  | p :: ps =>
    if cur.length + p.length ≤ chunk_size then
      mergeSegments chunk_size chunk_overlap (cur ++ p) ps
    else if cur = [] then
      mergeSegments chunk_size chunk_overlap
        (takeLast (min chunk_overlap (chunk_size - p.length)) cur ++ p) ps
    else
      cur :: mergeSegments chunk_size chunk_overlap
        (takeLast (min chunk_overlap (chunk_size - p.length)) cur ++ p) ps

/-- Modelled from the spec: `splitter.split_text(text)` with the
configuration of `add_text_to_chromadb` (`Finalapp.py` lines 252-258):
`chunk_size=700`, `chunk_overlap=100`,
`separators=["\n\n", "\n", " ", ""]`. -/
def split_text (text : String) : List String :=
  (mergeSegments 700 100 []
      (splitSegments 700 [['\n', '\n'], ['\n'], [' '], []] text.data)).map
    (fun l => String.mk l)

/-- One record of a chromadb collection as written by
`add_text_to_chromadb` (`Finalapp.py` lines 280-297): embedding, chunk
text, metadata and the identifier `<filename>_chunk_<index>`.  The
metadata is optional because `app.py` adds records without metadata. -/
structure EmbeddingRecord where
  id : String
  embedding : List ℚ
  document : String
  metadata : Option ChunkMetadata
deriving DecidableEq

/-- The identifiers stored in a collection. -/
def collectionIds (col : List EmbeddingRecord) : List String :=
  col.map EmbeddingRecord.id

/-- Modelled from the spec: `collection.add` of the Vector Index
(section 4.3) for a single record.  chromadb is an external library not
under `src/`; the spec fixes the design decision to reject a duplicate
identifier instead of upserting. -/
def collection_add (col : List EmbeddingRecord) (r : EmbeddingRecord) :
    Except String (List EmbeddingRecord) :=
  if r.id ∈ collectionIds col then Except.error ("Duplicate id: " ++ r.id)
  else Except.ok (col ++ [r])

/-- Sequential insertion of a list of records, the model of the per-chunk
`collection.add` loop. -/
def addRecords (rs : List EmbeddingRecord) (col : List EmbeddingRecord) :
    Except String (List EmbeddingRecord) :=
  rs.foldlM collection_add col

/-- The identifier scheme of `add_text_to_chromadb`
(`Finalapp.py` line 296): `f"{filename}_chunk_{i}"`. -/
def chunk_id (filename : String) (i : Nat) : String :=
  filename ++ "_chunk_" ++ natToString i

/-- The records produced for one document by the chunk loop of
`add_text_to_chromadb` (`Finalapp.py` lines 280-297): chunk `i` is stored
with its embedding, the metadata (filename, chunk index, chunk size) and
the identifier `<filename>_chunk_<i>`. -/
def chunkRecords (embed : String → List ℚ) (text filename : String) :
    List EmbeddingRecord :=
  (split_text text).enum.map (fun p =>
    { id := chunk_id filename p.1
      embedding := embed p.2
      document := p.2
      metadata := some
        { filename := some filename
          chunk_index := p.1
          chunk_size := p.2.length } })

/-- Shallow embedding of `add_text_to_chromadb` (`Finalapp.py`
lines 233-301) applied to an already resolved collection: the text is
chunked and every chunk is embedded and inserted.  The embedding model is
the external parameter `embed`. -/
def add_text_to_chromadb (embed : String → List ℚ) (text filename : String)
    (col : List EmbeddingRecord) : Except String (List EmbeddingRecord) :=
  addRecords (chunkRecords embed text filename) col

/-- Lookup in an association list, the model of reading a Python dict
(the most recent binding of a key shadows older ones). -/
def dictGet {α : Type} : List (String × α) → String → Option α
  | [], _ => none
  | p :: rest, k => if p.1 = k then some p.2 else dictGet rest k

/-- The client state of chromadb: the named collections held by the
in-process client, as an association list. -/
def ClientState : Type := List (String × List EmbeddingRecord)

/-- Modelled from the spec: `client.delete_collection` of the Vector
Index (section 4.3); deleting a missing collection is an error (the
caller of `reset_collection` catches it). -/
def delete_collection (client : ClientState) (name : String) :
    Except String ClientState :=
  if (dictGet client name).isSome then
    Except.ok (client.filter (fun p => ¬ p.1 = name))
  else Except.error ("Collection not found: " ++ name)

/-- Modelled from the spec: `client.create_collection` of the Vector
Index (section 4.3); creating an existing name is an error, the new
collection starts empty. -/
def create_collection (client : ClientState) (name : String) :
    Except String (ClientState × List EmbeddingRecord) :=
  if (dictGet client name).isSome then
    Except.error ("Collection already exists: " ++ name)
  else Except.ok ((name, []) :: client, [])

/-- Shallow embedding of `reset_collection` (`Finalapp.py`
lines 201-230): try to delete the old collection, treating failure as
success, then create a fresh empty collection with the same name and
return it. -/
def reset_collection (client : ClientState) (name : String) :
    Except String (ClientState × List EmbeddingRecord) :=
  let client1 :=
    match delete_collection client name with
    | Except.ok c => c
    | Except.error _ => client
  create_collection client1 name

/-- The fixed identifiers of `setup_documents` (`app.py` line 38). -/
def setup_documents_ids : List String :=
  ["doc1", "doc2", "doc3", "doc4", "doc5"]

/-- Shallow embedding of the `collection.add` call of `setup_documents`
(`app.py` lines 34-41): the five course documents are inserted with the
fixed identifiers `doc1` ... `doc5` and no metadata.  The document texts
are a parameter because their content is irrelevant to the identifier
semantics. -/
def setup_documents_add (embed : String → List ℚ) (texts : List String)
    (col : List EmbeddingRecord) : Except String (List EmbeddingRecord) :=
  addRecords
    ((texts.zip setup_documents_ids).map (fun p =>
      { id := p.2
        embedding := embed p.1
        document := p.1
        metadata := none }))
    col

/-- One entry of the search history (`Finalapp.py` lines 441-446):
question, answer, source and a timestamp. -/
structure SearchEntry where
  question : String
  answer : String
  source : String
  timestamp : String
deriving DecidableEq

/-- Shallow embedding of `add_to_search_history` (`Finalapp.py`
lines 427-450): the new entry is inserted at the front and the history is
cut back to the 10 most recent entries. -/
def add_to_search_history (e : SearchEntry) (history : List SearchEntry) :
    List SearchEntry :=
  let h := e :: history
  if h.length > 10 then h.take 10 else h

/-- Recording a sequence of `n` question/answer pairs into an initially
empty history; insertion `i` (counting from 0) is the entry `e i`. -/
def recordSeq (n : Nat) (e : Nat → SearchEntry) : List SearchEntry :=
  (List.range n).foldl (fun h i => add_to_search_history (e i) h) []

/-- Shallow embedding of the ask-question flow of
`create_tabbed_interface` (`Finalapp.py` lines 904-948): the answer
computation runs inside a try block; on success the answer is shown and
the question is recorded in the search history, on an exception an error
message is shown and the history is left untouched.  The fallible answer
computation is the parameter `answerer`, the timestamp is `ts`. -/
def ask_flow (answerer : String → Except String (String × String))
    (question ts : String) (history : List SearchEntry) :
    String × List SearchEntry :=
  match answerer question with
  | Except.error e => ("❌ Error generating answer: " ++ e, history)
  | Except.ok (answer, source) =>
    (answer, add_to_search_history
      { question := question, answer := answer, source := source, timestamp := ts }
      history)

/-- The placeholder text substituted for an empty or corrupted document
(`Finalapp.py` line 792). -/
def placeholder_document (filename : String) : String :=
  "# " ++ filename ++ "\n\nDocument appears to be empty or corrupted."

/-- The per-file warning recorded for an empty or corrupted document
(`Finalapp.py` line 793). -/
def content_warning (filename : String) : String :=
  "⚠️ " ++ filename ++ ": Content appears empty or corrupted"

/-- The conversion validation of the upload loop (`Finalapp.py`
lines 791-793): a converted text that is empty or has fewer than 10
characters after stripping whitespace is replaced by the placeholder
document and a warning is recorded. -/
def validate_conversion (filename text : String) : String × List String :=
  if text = "" ∨ text.trim.length < 10 then
    (placeholder_document filename, [content_warning filename])
  else (text, [])

/-- The mutable state threaded through the upload processing loop
(`Finalapp.py` lines 772-816): the successfully processed filenames, the
converted contents, the collected warnings and the collection. -/
structure BatchState where
  processed : List String
  document_contents : List (String × String)
  processing_errors : List String
  collection : List EmbeddingRecord

/-- Shallow embedding of one iteration of the upload processing loop
(`Finalapp.py` lines 777-816): convert the file, substitute the
placeholder for empty or corrupted content, store the content for
preview, insert the chunks into the collection.  An exception while
inserting is caught, recorded, and the loop continues with the next
file.  Document conversion is the external parameter `convert`. -/
def process_file (embed : String → List ℚ) (convert : String → String)
    (st : BatchState) (name : String) : BatchState :=
  match add_text_to_chromadb embed (validate_conversion name (convert name)).1
      name st.collection with
  | Except.ok col =>
    { processed := st.processed ++ [name]
      document_contents :=
        (name, (validate_conversion name (convert name)).1) :: st.document_contents
      processing_errors :=
        st.processing_errors ++ (validate_conversion name (convert name)).2
      collection := col }
  | Except.error e =>
    { processed := st.processed
      document_contents :=
        (name, (validate_conversion name (convert name)).1) :: st.document_contents
      processing_errors :=
        (st.processing_errors ++ (validate_conversion name (convert name)).2) ++
          ["❌ " ++ name ++ ": " ++ e]
      collection := st.collection }

/-- The whole upload batch: the loop over the valid files. -/
def process_batch (embed : String → List ℚ) (convert : String → String)
    (files : List String) (st : BatchState) : BatchState :=
  files.foldl (process_file embed convert) st

/-- The session state touched by the document manager
(`Finalapp.py` lines 599-611): the processed-file list, the stored
contents and the chromadb collection. -/
structure SessionState where
  uploaded_files_processed : List String
  document_contents : List (String × String)
  collection : List EmbeddingRecord

/-- Shallow embedding of the delete button of `show_document_manager`
(`Finalapp.py` lines 599-611): the filename at position `i` is removed
from the processed-file list and from the stored-contents map; the
chromadb collection is not touched. -/
def delete_document (st : SessionState) (i : Nat) : SessionState :=
  match st.uploaded_files_processed.get? i with
  | none => st
  | some filename =>
    { uploaded_files_processed := st.uploaded_files_processed.eraseIdx i
      document_contents := st.document_contents.filter (fun p => ¬ p.1 = filename)
      collection := st.collection }

/-! ### Helper lemmas -/

theorem dictGet_filter_self {α : Type} (l : List (String × α)) (k : String) :
    dictGet (l.filter (fun p => ¬ p.1 = k)) k = none := by
  induction l with
  | nil => rfl
  | cons p rest ih =>
    by_cases h : p.1 = k
    · have hfilter : (p :: rest).filter (fun q => ¬ q.1 = k) =
          rest.filter (fun q => ¬ q.1 = k) := by
        simp [List.filter_cons, h]
      rw [hfilter]
      exact ih
    · have hfilter : (p :: rest).filter (fun q => ¬ q.1 = k) =
          p :: rest.filter (fun q => ¬ q.1 = k) := by
        simp [List.filter_cons, h]
      rw [hfilter, dictGet, if_neg h]
      exact ih

theorem dictGet_filter_ne {α : Type} (l : List (String × α)) (k other : String)
    (h : other ≠ k) :
    dictGet (l.filter (fun p => ¬ p.1 = k)) other = dictGet l other := by
  induction l with
  | nil => rfl
  | cons p rest ih =>
    by_cases hp : p.1 = k
    · have hpo : ¬ p.1 = other := by
        intro hcontra
        exact h (hcontra ▸ hp)
      have hfilter : (p :: rest).filter (fun q => ¬ q.1 = k) =
          rest.filter (fun q => ¬ q.1 = k) := by
        simp [List.filter_cons, hp]
      rw [hfilter, ih]
      show dictGet rest other = dictGet (p :: rest) other
      rw [dictGet, if_neg hpo]
    · have hfilter : (p :: rest).filter (fun q => ¬ q.1 = k) =
          p :: rest.filter (fun q => ¬ q.1 = k) := by
        simp [List.filter_cons, hp]
      rw [hfilter, dictGet, dictGet, ih]

theorem add_to_search_history_eq (e : SearchEntry) (h : List SearchEntry) :
    (add_to_search_history e h).head? = some e ∧
    (add_to_search_history e h).length = min (h.length + 1) 10 := by
  unfold add_to_search_history
  by_cases hl : (e :: h).length > 10
  · simp only [if_pos hl]
    constructor
    · have h10 : (10 : Nat) = 9 + 1 := rfl
      rw [h10, List.take_succ_cons]
      rfl
    · simp only [List.length_take, List.length_cons]
      simp only [List.length_cons] at hl
      omega
  · simp only [if_neg hl]
    constructor
    · rfl
    · simp only [List.length_cons] at hl ⊢
      omega

/-! ### Claim theorems -/

/-- C6. Reset idempotence: for every client state and collection name,
`reset_collection` succeeds (treating a missing collection as already
deleted), returns a fresh empty collection registered under that name,
and leaves every other name untouched; in particular resetting a
nonexistent collection and resetting an existing nonempty one yield the
same observable result (an empty returned collection, an empty collection
stored under the name). -/
theorem reset_collection_idempotent (client : ClientState) (name other : String)
    (h : other ≠ name) :
    ∃ client1, reset_collection client name =
        Except.ok (client1, ([] : List EmbeddingRecord)) ∧
      dictGet client1 name = some [] ∧
      dictGet client1 other = dictGet client other := by
  unfold reset_collection delete_collection create_collection
  by_cases hs : (dictGet client name).isSome
  · simp only [if_pos hs]
    have hnone : dictGet (client.filter (fun p => ¬ p.1 = name)) name = none :=
      dictGet_filter_self client name
    refine ⟨(name, []) :: client.filter (fun p => ¬ p.1 = name), ?_, ?_, ?_⟩
    · rw [hnone]
      rfl
    · rw [dictGet, if_pos rfl]
    · rw [dictGet, if_neg (fun hc => h hc.symm)]
      exact dictGet_filter_ne client name other h
  · simp only [if_neg hs]
    have hnone : dictGet client name = none := by
      cases hd : dictGet client name with
      | none => rfl
      | some v => exact absurd (by rw [hd]; rfl) hs
    refine ⟨(name, []) :: client, ?_, ?_, ?_⟩
    · rfl
    · rw [dictGet, if_pos rfl]
    · rw [dictGet, if_neg (fun hc => h hc.symm)]

/-- Witness for C6 at a concrete client holding a nonempty collection. -/
theorem reset_collection_idempotent_witness :
    ∃ client1,
      reset_collection
          [("uploaded_documents",
            [{ id := "a.txt_chunk_0", embedding := [], document := "hello",
               metadata := none }])]
          "uploaded_documents" =
        Except.ok (client1, ([] : List EmbeddingRecord)) ∧
      dictGet client1 "uploaded_documents" = some [] ∧
      dictGet client1 "other" =
        dictGet
          [("uploaded_documents",
            [{ id := "a.txt_chunk_0", embedding := [], document := "hello",
               metadata := none }])]
          "other" :=
  reset_collection_idempotent _ "uploaded_documents" "other" (by decide)

/-- C7. History bound: `add_to_search_history` prepends the new entry at
the front (newest first) and keeps at most 10 entries; recording 15
entries into an initially empty history leaves exactly the 6th through
15th insertions, newest first. -/
theorem search_history_bound :
    (∀ (e : SearchEntry) (h : List SearchEntry),
        (add_to_search_history e h).head? = some e ∧
        (add_to_search_history e h).length = min (h.length + 1) 10) ∧
    (∀ e : Nat → SearchEntry,
        recordSeq 15 e =
          [e 14, e 13, e 12, e 11, e 10, e 9, e 8, e 7, e 6, e 5]) := by
  constructor
  · exact add_to_search_history_eq
  · intro e
    simp only [recordSeq, List.range_succ, List.foldl_append, List.foldl_cons,
      List.foldl_nil, add_to_search_history]
    norm_num

/-- C8. Generation-error atomicity: when the answer computation fails,
the ask flow surfaces a visible failure message and leaves the search
history unchanged; only a normally returned answer is recorded. -/
theorem generation_error_atomicity
    (answerer : String → Except String (String × String))
    (question ts : String) (history : List SearchEntry) :
    (∀ e, answerer question = Except.error e →
        ask_flow answerer question ts history =
          ("❌ Error generating answer: " ++ e, history)) ∧
    (∀ a s, answerer question = Except.ok (a, s) →
        ask_flow answerer question ts history =
          (a, add_to_search_history
            { question := question, answer := a, source := s, timestamp := ts }
            history)) := by
  constructor
  · intro e he
    unfold ask_flow
    rw [he]
  · intro a s hok
    unfold ask_flow
    rw [hok]

/-- Witness for C8: a failing generator leaves a concrete history
unchanged, a succeeding one records the question. -/
theorem generation_error_atomicity_witness :
    ask_flow (fun _ => Except.error ("model failure")) "q" "12:00:00"
        [{ question := "p", answer := "a", source := "s.txt", timestamp := "11:00:00" }] =
      ("❌ Error generating answer: " ++ "model failure",
        [{ question := "p", answer := "a", source := "s.txt", timestamp := "11:00:00" }]) ∧
    ask_flow (fun _ => Except.ok ("Paris", "tower.txt")) "q" "12:00:00" [] =
      ("Paris", add_to_search_history
        { question := "q", answer := "Paris", source := "tower.txt",
          timestamp := "12:00:00" } []) :=
  ⟨(generation_error_atomicity _ "q" "12:00:00" _).1 ("model failure") rfl,
   (generation_error_atomicity _ "q" "12:00:00" _).2 "Paris" "tower.txt" rfl⟩

/-- C10. Frame effect of deleting a document: the delete button removes
the filename only from the processed-file list and the stored-contents
map; the chromadb collection is untouched, so its records (the embedded
chunks of the deleted document included) remain retrievable and any
query-based answer over the same collection is unchanged. -/
theorem delete_document_frame_effect (st : SessionState) (i : Nat)
    (filename : String)
    (h : st.uploaded_files_processed.get? i = some filename) :
    (delete_document st i).collection = st.collection ∧
    (delete_document st i).uploaded_files_processed =
      st.uploaded_files_processed.eraseIdx i ∧
    dictGet (delete_document st i).document_contents filename = none ∧
    (∀ r ∈ st.collection, r ∈ (delete_document st i).collection) ∧
    (∀ (query : List EmbeddingRecord → String → QueryResult)
        (gen : String → String) (q : String),
        get_answer_with_source gen (query ((delete_document st i).collection) q) q =
        get_answer_with_source gen (query st.collection q) q) := by
  unfold delete_document
  rw [h]
  refine ⟨rfl, rfl, dictGet_filter_self _ _, ?_, ?_⟩
  · intro r hr
    exact hr
  · intro query gen q
    rfl

/-- Witness for C10 at a concrete session state. -/
theorem delete_document_frame_effect_witness :
    (delete_document
        ⟨["a.txt"], [("a.txt", "hello world")],
          [⟨"a.txt_chunk_0", [], "hello world", some ⟨some "a.txt", 0, 11⟩⟩]⟩
        0).collection =
      [⟨"a.txt_chunk_0", [], "hello world", some ⟨some "a.txt", 0, 11⟩⟩] ∧
    (delete_document
        ⟨["a.txt"], [("a.txt", "hello world")],
          [⟨"a.txt_chunk_0", [], "hello world", some ⟨some "a.txt", 0, 11⟩⟩]⟩
        0).uploaded_files_processed = (["a.txt"].eraseIdx 0) ∧
    dictGet
      (delete_document
        ⟨["a.txt"], [("a.txt", "hello world")],
          [⟨"a.txt_chunk_0", [], "hello world", some ⟨some "a.txt", 0, 11⟩⟩]⟩
        0).document_contents "a.txt" = none := by
  obtain ⟨h1, h2, h3, _, _⟩ := delete_document_frame_effect
    ⟨["a.txt"], [("a.txt", "hello world")],
      [⟨"a.txt_chunk_0", [], "hello world", some ⟨some "a.txt", 0, 11⟩⟩]⟩
    0 "a.txt" rfl
  exact ⟨h1, h2, h3⟩

/-- C1. Sufficiency gate: when the query returns no documents or the
minimum distance exceeds 1.5, every answer function returns its fixed
refusal (for `get_answer_with_source` paired with source `"No source"`),
and the result does not depend on the generation model `gen` (the model
is not invoked); otherwise `get_answer_with_source` builds the evidence
context and returns the stripped output of the generation model on the
constructed prompt. -/
theorem sufficiency_gate (gen : String → String) (res : QueryResult)
    (question : String) :
    (res.documents = [] ∨ pyMin res.distances > 3 / 2 →
        get_answer_with_source gen res question =
          ("I cannot answer this question based on the uploaded documents.",
            "No source") ∧
        get_answer gen res question =
          "I cannot answer this question based on the uploaded documents." ∧
        get_answer_app gen res question =
          "I cannot answer this question with my knowledge.") ∧
    (¬ (res.documents = [] ∨ pyMin res.distances > 3 / 2) →
        get_answer_with_source gen res question =
          ((gen (buildPrompt (chooseContext res) question)).trim,
            bestSource res)) := by
  constructor
  · intro hgate
    refine ⟨?_, ?_, ?_⟩
    · unfold get_answer_with_source
      rw [if_pos hgate]
    · unfold get_answer
      rw [if_pos hgate]
    · unfold get_answer_app
      rw [if_pos hgate]
  · intro hgate
    unfold get_answer_with_source
    rw [if_neg hgate]

/-- Witness for C1: at an empty query result the gate fires for any
generator, at a close result the generator output is returned. -/
theorem sufficiency_gate_witness :
    get_answer_with_source (fun _ => " generated ") ⟨[], [], [], []⟩ "q" =
      ("I cannot answer this question based on the uploaded documents.",
        "No source") ∧
    get_answer_with_source (fun _ => " generated ")
        ⟨["chunk"], [1], ["a.txt_chunk_0"], [⟨some "a.txt", 0, 5⟩]⟩ "q" =
      (((fun (_ : String) => " generated ")
          (buildPrompt
            (chooseContext ⟨["chunk"], [1], ["a.txt_chunk_0"], [⟨some "a.txt", 0, 5⟩]⟩)
            "q")).trim,
        bestSource ⟨["chunk"], [1], ["a.txt_chunk_0"], [⟨some "a.txt", 0, 5⟩]⟩) :=
  ⟨((sufficiency_gate _ ⟨[], [], [], []⟩ "q").1 (Or.inl rfl)).1,
   (sufficiency_gate _ _ "q").2 (by
      rw [not_or]
      refine ⟨by decide, ?_⟩
      show ¬ pyMin [1] > 3 / 2
      norm_num [pyMin])⟩

/-- C2. Source attribution: whenever the sufficiency gate passes, the
source returned by `get_answer_with_source` is the filename metadata of
the rank-0 retrieved chunk, whatever the other retrieved chunks are. -/
theorem source_attribution (gen : String → String) (res : QueryResult)
    (question f : String) (md : ChunkMetadata)
    (hdocs : ¬ res.documents = [])
    (hdist : pyMin res.distances ≤ 3 / 2)
    (hhead : res.metadatas.head? = some md)
    (hf : md.filename = some f) :
    (get_answer_with_source gen res question).2 = f := by
  have hgate : ¬ (res.documents = [] ∨ pyMin res.distances > 3 / 2) := by
    rw [not_or]
    exact ⟨hdocs, not_lt.mpr hdist⟩
  have hne : res.metadatas ≠ [] := by
    intro hnil
    rw [hnil] at hhead
    exact Option.noConfusion hhead
  unfold get_answer_with_source
  rw [if_neg hgate]
  show bestSource res = f
  unfold bestSource
  rw [if_pos hne, hhead]
  show (md.filename.getD ("Unknown source")) = f
  rw [hf]
  rfl

/-- Witness for C2: the rank-0 filename is returned even though the other
retrieved chunks come from a different file. -/
theorem source_attribution_witness :
    (get_answer_with_source (fun _ => "answer")
        ⟨["c0", "c1", "c2"], [1, 5/4, 3/2],
          ["a.txt_chunk_0", "b.txt_chunk_3", "b.txt_chunk_4"],
          [⟨some "a.txt", 0, 2⟩, ⟨some "b.txt", 3, 2⟩, ⟨some "b.txt", 4, 2⟩]⟩
        "q").2 = "a.txt" := by
  refine source_attribution _ _ "q" "a.txt" ⟨some "a.txt", 0, 2⟩ (by decide) ?_ rfl rfl
  show pyMin [1, 5/4, 3/2] ≤ 3 / 2
  norm_num [pyMin]

theorem contextWithSources_eq_render (docs : List String) (mds : List ChunkMetadata)
    (fns : List String)
    (hmap : mds.map ChunkMetadata.filename = fns.map some)
    (hlen : docs.length = mds.length) :
    contextWithSources docs mds = renderEvidenceBlock (docs.zip fns) := by
  have hlen2 : mds.length = fns.length := by
    have h := congrArg List.length hmap
    simpa using h
  unfold contextWithSources renderEvidenceBlock
  congr 1
  apply List.ext_get?_iff.mpr
  intro n
  rw [List.get?_map, List.get?_map, List.get?_enum, List.get?_enum]
  cases hd : docs.get? n with
  | none =>
    have hz : (docs.zip fns).get? n = none := by
      rw [List.zip_eq_zipWith, List.get?_zipWith, hd]
    rw [hz]
    rfl
  | some d =>
    have hn : n < docs.length := by
      by_contra hcon
      rw [List.get?_eq_none.mpr (le_of_not_lt hcon)] at hd
      exact Option.noConfusion hd
    obtain ⟨md, hmd⟩ : ∃ md, mds.get? n = some md := by
      cases hm : mds.get? n with
      | none =>
        have := List.get?_eq_none.mp hm
        omega
      | some md => exact ⟨md, rfl⟩
    obtain ⟨fn, hfn⟩ : ∃ fn, fns.get? n = some fn := by
      cases hf : fns.get? n with
      | none =>
        have := List.get?_eq_none.mp hf
        omega
      | some fn => exact ⟨fn, rfl⟩
    have hfil : md.filename = some fn := by
      have h := congrArg (fun l => l.get? n) hmap
      simp only [List.get?_map, hmd, hfn, Option.map_some] at h
      exact Option.some_injective _ h
    have hz : (docs.zip fns).get? n = some (d, fn) := by
      rw [List.zip_eq_zipWith, List.get?_zipWith, hd, hfn]
    rw [hz]
    simp only [Option.map_some']
    have hmf : metadataFilename mds n = fn := by
      unfold metadataFilename
      rw [hmd]
      show (md.filename.getD ("unknown")) = fn
      rw [hfil]
      rfl
    rw [hmf]

/-- C3. Prompt construction: when the sufficiency gate passes, the prompt
sent to the generation model is exactly the four parts in fixed order
(context block rendering each retrieved chunk with its source filename in
rank order joined by blank lines, the literal question, the restricting
instruction block, the answer cue) and the returned answer is the
generated text with surrounding whitespace stripped. -/
theorem prompt_construction (gen : String → String) (res : QueryResult)
    (question : String) (fns : List String)
    (hgate : ¬ (res.documents = [] ∨ pyMin res.distances > 3 / 2))
    (hmap : res.metadatas.map ChunkMetadata.filename = fns.map some)
    (hlen : res.documents.length = res.metadatas.length)
    (hne : res.metadatas ≠ []) :
    (get_answer_with_source gen res question).1 =
      (gen ("Context information:\n" ++
        renderEvidenceBlock (res.documents.zip fns) ++
        "\n\nQuestion: " ++ question ++ "\n\n" ++ instructionBlock ++
        "\n\nAnswer:")).trim := by
  unfold get_answer_with_source
  rw [if_neg hgate]
  show (gen (buildPrompt (chooseContext res) question)).trim = _
  unfold chooseContext
  rw [if_pos hne,
    contextWithSources_eq_render res.documents res.metadatas fns hmap hlen]
  rfl

/-- Witness for C3 at a concrete one-chunk query result. -/
theorem prompt_construction_witness :
    (get_answer_with_source (fun p => " op " ++ p ++ " ed ")
        ⟨["The Eiffel Tower is in Paris."], [1], ["a.txt_chunk_0"],
          [⟨some "a.txt", 0, 29⟩]⟩ "Where is the Eiffel Tower?").1 =
      ((fun (p : String) => " op " ++ p ++ " ed ")
        ("Context information:\n" ++
          renderEvidenceBlock
            (["The Eiffel Tower is in Paris."].zip ["a.txt"]) ++
          "\n\nQuestion: " ++ "Where is the Eiffel Tower?" ++ "\n\n" ++
          instructionBlock ++ "\n\nAnswer:")).trim := by
  refine prompt_construction _ _ "Where is the Eiffel Tower?" ["a.txt"] ?_ rfl rfl (by decide)
  rw [not_or]
  refine ⟨by decide, ?_⟩
  show ¬ pyMin [1] > 3 / 2
  norm_num [pyMin]

theorem decimalDigitsAux_fuel (n : Nat) :
    ∀ f1 f2, n < f1 → n < f2 → decimalDigitsAux f1 n = decimalDigitsAux f2 n := by
  induction n using Nat.strong_induction_on with
  | _ n ih =>
    intro f1 f2 h1 h2
    cases f1 with
    | zero => omega
    | succ g1 =>
      cases f2 with
      | zero => omega
      | succ g2 =>
        show decimalDigitsAux (g1 + 1) n = decimalDigitsAux (g2 + 1) n
        unfold decimalDigitsAux
        by_cases h10 : n < 10
        · rw [if_pos h10, if_pos h10]
        · rw [if_neg h10, if_neg h10]
          have hdiv : n / 10 < n := Nat.div_lt_self (by omega) (by omega)
          rw [ih (n / 10) hdiv g1 g2 (by omega) (by omega)]

theorem decimalDigits_eq (n : Nat) :
    decimalDigits n =
      if n < 10 then [decimalDigitChar n]
      else decimalDigits (n / 10) ++ [decimalDigitChar (n % 10)] := by
  show decimalDigitsAux (n + 1) n = _
  simp only [decimalDigitsAux]
  by_cases h10 : n < 10
  · rw [if_pos h10, if_pos h10]
  · rw [if_neg h10, if_neg h10]
    congr 1
    have hdiv : n / 10 < n := Nat.div_lt_self (by omega) (by omega)
    exact decimalDigitsAux_fuel (n / 10) n (n / 10 + 1) (by omega) (by omega)

theorem decimalDigits_ne_nil (n : Nat) : decimalDigits n ≠ [] := by
  rw [decimalDigits_eq]
  by_cases h10 : n < 10
  · rw [if_pos h10]
    exact List.cons_ne_nil _ _
  · rw [if_neg h10]
    simp

theorem decimalDigitChar_inj :
    ∀ a, a < 10 → ∀ b, b < 10 → decimalDigitChar a = decimalDigitChar b → a = b := by
  decide

theorem decimalDigits_inj : ∀ m n, decimalDigits m = decimalDigits n → m = n := by
  intro m
  induction m using Nat.strong_induction_on with
  | _ m ih =>
    intro n h
    rw [decimalDigits_eq m, decimalDigits_eq n] at h
    by_cases hm : m < 10 <;> by_cases hn : n < 10
    · rw [if_pos hm, if_pos hn] at h
      exact decimalDigitChar_inj m hm n hn (List.cons_eq_cons.mp h).1
    · rw [if_pos hm, if_neg hn] at h
      have hlen := congrArg List.length h
      simp only [List.length_append, List.length_cons, List.length_nil] at hlen
      have hne := decimalDigits_ne_nil (n / 10)
      have hlz : (decimalDigits (n / 10)).length ≠ 0 := by
        intro hz
        exact hne (List.length_eq_zero.mp hz)
      omega
    · rw [if_neg hm, if_pos hn] at h
      have hlen := congrArg List.length h
      simp only [List.length_append, List.length_cons, List.length_nil] at hlen
      have hne := decimalDigits_ne_nil (m / 10)
      have hlz : (decimalDigits (m / 10)).length ≠ 0 := by
        intro hz
        exact hne (List.length_eq_zero.mp hz)
      omega
    · rw [if_neg hm, if_neg hn] at h
      have h2 := congrArg List.reverse h
      simp only [List.reverse_append, List.reverse_cons, List.reverse_nil,
        List.nil_append, List.singleton_append] at h2
      obtain ⟨hxy, hab⟩ := List.cons_eq_cons.mp h2
      have hmod : m % 10 = n % 10 :=
        decimalDigitChar_inj _ (Nat.mod_lt _ (by omega)) _ (Nat.mod_lt _ (by omega)) hxy
      have hdivs : decimalDigits (m / 10) = decimalDigits (n / 10) :=
        List.reverse_injective hab
      have hdiv : m / 10 = n / 10 :=
        ih (m / 10) (Nat.div_lt_self (by omega) (by omega)) (n / 10) hdivs
      omega

theorem natToString_inj : Function.Injective natToString := by
  intro m n h
  exact decimalDigits_inj m n (congrArg String.data h)

theorem chunk_id_inj (filename : String) : Function.Injective (chunk_id filename) := by
  intro i j h
  unfold chunk_id at h
  have hd := congrArg String.data h
  simp only [String.data_append, List.append_assoc] at hd
  have h1 := List.append_cancel_left hd
  have h2 := List.append_cancel_left h1
  exact natToString_inj (by
    show natToString i = natToString j
    exact congrArg String.mk h2)

theorem chunkRecords_ids (embed : String → List ℚ) (text filename : String) :
    (chunkRecords embed text filename).map EmbeddingRecord.id =
      (List.range (split_text text).length).map (chunk_id filename) := by
  unfold chunkRecords
  rw [List.map_map, ← List.enum_map_fst (split_text text), List.map_map]
  rfl

theorem addRecords_ok_append :
    ∀ (rs col col' : List EmbeddingRecord),
      addRecords rs col = Except.ok col' → col' = col ++ rs := by
  intro rs
  induction rs with
  | nil =>
    intro col col' h
    have h2 : col = col' := Except.ok.inj h
    simp [← h2]
  | cons r rs ih =>
    intro col col' h
    unfold addRecords at h
    rw [List.foldlM_cons] at h
    unfold collection_add at h
    by_cases hmem : r.id ∈ collectionIds col
    · rw [if_pos hmem] at h
      exact Except.noConfusion h
    · rw [if_neg hmem] at h
      have h' : addRecords rs (col ++ [r]) = Except.ok col' := h
      rw [ih (col ++ [r]) col' h', List.append_assoc]
      rfl

theorem addRecords_nodup :
    ∀ (rs col col' : List EmbeddingRecord),
      (collectionIds col).Nodup → addRecords rs col = Except.ok col' →
      (collectionIds col').Nodup := by
  intro rs
  induction rs with
  | nil =>
    intro col col' hnd h
    have h2 : col = col' := Except.ok.inj h
    rwa [← h2]
  | cons r rs ih =>
    intro col col' hnd h
    unfold addRecords at h
    rw [List.foldlM_cons] at h
    unfold collection_add at h
    by_cases hmem : r.id ∈ collectionIds col
    · rw [if_pos hmem] at h
      exact Except.noConfusion h
    · rw [if_neg hmem] at h
      have h' : addRecords rs (col ++ [r]) = Except.ok col' := h
      apply ih (col ++ [r]) col' _ h'
      have hids : collectionIds (col ++ [r]) = collectionIds col ++ [r.id] := by
        unfold collectionIds
        rw [List.map_append]
        rfl
      rw [hids]
      simp only [List.nodup_append, List.nodup_cons, List.not_mem_nil,
        not_false_iff, List.nodup_nil, true_and, and_true]
      refine ⟨hnd, ?_⟩
      intro a ha hb
      simp only [List.mem_singleton] at hb
      exact hmem (hb ▸ ha)

theorem addRecords_error_of_head (r : EmbeddingRecord) (rs col : List EmbeddingRecord)
    (hmem : r.id ∈ collectionIds col) :
    ∃ msg, addRecords (r :: rs) col = Except.error msg := by
  refine ⟨"Duplicate id: " ++ r.id, ?_⟩
  unfold addRecords
  rw [List.foldlM_cons]
  unfold collection_add
  rw [if_pos hmem]
  rfl

theorem chunkRecords_cons (embed : String → List ℚ) (text filename : String)
    (c : String) (cs : List String) (hL : split_text text = c :: cs) :
    ∃ rest, chunkRecords embed text filename =
      (⟨chunk_id filename 0, embed c, c,
        some ⟨some filename, 0, c.length⟩⟩ : EmbeddingRecord) :: rest := by
  refine ⟨(cs.enumFrom 1).map (fun p =>
    ⟨chunk_id filename p.1, embed p.2, p.2,
      some ⟨some filename, p.1, p.2.length⟩⟩), ?_⟩
  unfold chunkRecords
  rw [hL]
  rfl

/-- C5. Identifier uniqueness: the records stored for a document carry
exactly the identifiers `<filename>_chunk_<index>` for the successive
chunk indices; those identifiers are pairwise distinct; the store keeps
the identifiers of a collection duplicate-free; and re-adding the same
filename (or re-running the fixed-identifier `setup_documents` insert)
without an intervening reset is rejected with a duplicate-identifier
error instead of silently duplicating. -/
theorem id_uniqueness :
    (∀ (embed : String → List ℚ) (text filename : String),
        (chunkRecords embed text filename).map EmbeddingRecord.id =
          (List.range (split_text text).length).map (chunk_id filename)) ∧
    (∀ (filename : String) (k : Nat),
        ((List.range k).map (chunk_id filename)).Nodup) ∧
    (∀ (rs col col' : List EmbeddingRecord),
        (collectionIds col).Nodup → addRecords rs col = Except.ok col' →
        (collectionIds col').Nodup) ∧
    (∀ (embed embed2 : String → List ℚ) (text filename : String)
        (col col' : List EmbeddingRecord),
        split_text text ≠ [] →
        add_text_to_chromadb embed text filename col = Except.ok col' →
        ∃ msg, add_text_to_chromadb embed2 text filename col' = Except.error msg) ∧
    (∀ (embed : String → List ℚ) (texts : List String)
        (col col' : List EmbeddingRecord),
        texts ≠ [] →
        setup_documents_add embed texts col = Except.ok col' →
        ∃ msg, setup_documents_add embed texts col' = Except.error msg) := by
  refine ⟨chunkRecords_ids, ?_, addRecords_nodup, ?_, ?_⟩
  · intro filename k
    exact List.Nodup.map (chunk_id_inj filename) (List.nodup_range k)
  · intro embed embed2 text filename col col' hne hok
    obtain ⟨c, cs, hL⟩ : ∃ c cs, split_text text = c :: cs := by
      cases hsp : split_text text with
      | nil => exact absurd hsp hne
      | cons c cs => exact ⟨c, cs, rfl⟩
    obtain ⟨rest1, hrec1⟩ := chunkRecords_cons embed text filename c cs hL
    obtain ⟨rest2, hrec2⟩ := chunkRecords_cons embed2 text filename c cs hL
    have hcol' : col' = col ++ chunkRecords embed text filename :=
      addRecords_ok_append _ _ _ hok
    have hmem : chunk_id filename 0 ∈ collectionIds col' := by
      rw [hcol']
      have hsplit : collectionIds (col ++ chunkRecords embed text filename) =
          collectionIds col ++ collectionIds (chunkRecords embed text filename) := by
        unfold collectionIds
        rw [List.map_append]
      rw [hsplit]
      apply List.mem_append_right
      rw [hrec1]
      unfold collectionIds
      rw [List.map_cons]
      exact List.mem_cons_self _ _
    unfold add_text_to_chromadb
    rw [hrec2]
    exact addRecords_error_of_head _ _ _ hmem
  · intro embed texts col col' hne hok
    obtain ⟨t, ts, hT⟩ : ∃ t ts, texts = t :: ts := by
      cases texts with
      | nil => exact absurd rfl hne
      | cons t ts => exact ⟨t, ts, rfl⟩
    subst hT
    have hcol' : col' = col ++
        (((t :: ts).zip setup_documents_ids).map (fun p =>
          (⟨p.2, embed p.1, p.1, none⟩ : EmbeddingRecord))) :=
      addRecords_ok_append _ _ _ hok
    have hmem : "doc1" ∈ collectionIds col' := by
      rw [hcol']
      have hsplit : collectionIds (col ++
          (((t :: ts).zip setup_documents_ids).map (fun p =>
            (⟨p.2, embed p.1, p.1, none⟩ : EmbeddingRecord)))) =
          collectionIds col ++
            collectionIds (((t :: ts).zip setup_documents_ids).map (fun p =>
              (⟨p.2, embed p.1, p.1, none⟩ : EmbeddingRecord))) := by
        unfold collectionIds
        rw [List.map_append]
      rw [hsplit]
      apply List.mem_append_right
      show ("doc1" : String) ∈
        collectionIds ((⟨"doc1", embed t, t, none⟩ : EmbeddingRecord) ::
          ((ts.zip ["doc2", "doc3", "doc4", "doc5"]).map (fun p =>
            (⟨p.2, embed p.1, p.1, none⟩ : EmbeddingRecord))))
      unfold collectionIds
      rw [List.map_cons]
      exact List.mem_cons_self _ _
    exact addRecords_error_of_head (⟨"doc1", embed t, t, none⟩ : EmbeddingRecord)
      ((ts.zip ["doc2", "doc3", "doc4", "doc5"]).map (fun p =>
        (⟨p.2, embed p.1, p.1, none⟩ : EmbeddingRecord))) col' hmem

/-- Witness for C5: a concrete store keeps identifiers duplicate-free,
and re-adding the file `a.txt` (or re-running the fixed-identifier
insert) on a collection that already holds its chunks is rejected. -/
theorem id_uniqueness_witness :
    ((collectionIds [(⟨"x", [], "d", none⟩ : EmbeddingRecord)]).Nodup) ∧
    (∃ msg, add_text_to_chromadb (fun _ => []) "hello" "a.txt"
        [(⟨"a.txt_chunk_0", [], "hello",
          some ⟨some "a.txt", 0, 5⟩⟩ : EmbeddingRecord)] =
      Except.error msg) ∧
    (∃ msg, setup_documents_add (fun _ => []) ["t1"]
        [(⟨"doc1", [], "t1", none⟩ : EmbeddingRecord)] = Except.error msg) := by
  refine ⟨?_, ?_, ?_⟩
  · exact id_uniqueness.2.2.1 [(⟨"x", [], "d", none⟩ : EmbeddingRecord)] []
      _ (by decide) rfl
  · exact id_uniqueness.2.2.2.1 (fun _ => []) (fun _ => []) "hello" "a.txt" []
      _ (by decide) rfl
  · exact id_uniqueness.2.2.2.2 (fun _ => []) ["t1"] [] _ (by decide) rfl

theorem takeLast_length (n : Nat) (l : List Char) : (takeLast n l).length ≤ n := by
  unfold takeLast
  rw [List.length_drop]
  omega

theorem mergeSegments_le (size overlap : Nat) :
    ∀ (ps : List (List Char)) (cur : List Char),
      cur.length ≤ size → (∀ p ∈ ps, p.length ≤ size) →
      ∀ c ∈ mergeSegments size overlap cur ps, c.length ≤ size := by
  intro ps
  induction ps with
  | nil =>
    intro cur hcur _ c hc
    unfold mergeSegments at hc
    by_cases hnil : cur = []
    · rw [if_pos hnil] at hc
      exact absurd hc (List.not_mem_nil c)
    · rw [if_neg hnil] at hc
      rw [List.mem_singleton] at hc
      rw [hc]
      exact hcur
  | cons p ps ih =>
    intro cur hcur hall c hc
    unfold mergeSegments at hc
    have hp : p.length ≤ size := hall p (List.mem_cons_self p ps)
    have hcarry : (takeLast (min overlap (size - p.length)) cur ++ p).length ≤ size := by
      rw [List.length_append]
      have h1 := takeLast_length (min overlap (size - p.length)) cur
      have h2 : min overlap (size - p.length) ≤ size - p.length := Nat.min_le_right _ _
      omega
    have htail : ∀ q ∈ ps, q.length ≤ size :=
      fun q hq => hall q (List.mem_cons_of_mem p hq)
    by_cases hfit : cur.length + p.length ≤ size
    · rw [if_pos hfit] at hc
      apply ih (cur ++ p) _ htail c hc
      rw [List.length_append]
      exact hfit
    · rw [if_neg hfit] at hc
      by_cases hnil : cur = []
      · rw [if_pos hnil] at hc
        exact ih _ hcarry htail c hc
      · rw [if_neg hnil] at hc
        rcases List.mem_cons.mp hc with hceq | hcm
        · rw [hceq]
          exact hcur
        · exact ih _ hcarry htail c hcm

theorem splitSegments_char_le (t : List Char) (s : List Char)
    (hs : s ∈ splitSegments 700 [[]] t) : s.length ≤ 700 := by
  unfold splitSegments at hs
  by_cases h : t.length ≤ 700
  · rw [if_pos h] at hs
    rw [List.mem_singleton] at hs
    rw [hs]
    exact h
  · rw [if_neg h] at hs
    rw [List.mem_bind] at hs
    obtain ⟨p, hp, hsp⟩ := hs
    have hsep : s = p := by
      unfold splitSegments at hsp
      rw [List.mem_singleton] at hsp
      exact hsp
    unfold splitBySeparator at hp
    rw [if_pos rfl] at hp
    rw [List.mem_map] at hp
    obtain ⟨ch, _, hpc⟩ := hp
    rw [hsep, ← hpc]
    simp

theorem splitSegments_cons_le (sep : List Char) (seps : List (List Char))
    (H : ∀ t s, s ∈ splitSegments 700 seps t → s.length ≤ 700) :
    ∀ t s, s ∈ splitSegments 700 (sep :: seps) t → s.length ≤ 700 := by
  intro t s hs
  unfold splitSegments at hs
  by_cases h : t.length ≤ 700
  · rw [if_pos h] at hs
    rw [List.mem_singleton] at hs
    rw [hs]
    exact h
  · rw [if_neg h] at hs
    rw [List.mem_bind] at hs
    obtain ⟨p, _, hsp⟩ := hs
    exact H p s hsp

/-- C4. Chunk size bound: every chunk produced by the chunker configured
with `chunk_size=700`, `chunk_overlap=100` and the separator priority
paragraph break, line break, space, character boundary has length at most
700 characters (the character-boundary separator means no atomic segment
can ever exceed the bound, so the bound holds without exception). -/
theorem chunk_size_bound (text : String) (c : String)
    (hc : c ∈ split_text text) : c.length ≤ 700 := by
  unfold split_text at hc
  rw [List.mem_map] at hc
  obtain ⟨l, hl, hcl⟩ := hc
  have hseg : ∀ s ∈ splitSegments 700 [['\n', '\n'], ['\n'], [' '], []] text.data,
      s.length ≤ 700 :=
    fun s hs =>
      splitSegments_cons_le _ _
        (splitSegments_cons_le _ _
          (splitSegments_cons_le _ _ splitSegments_char_le)) text.data s hs
  have hlen : l.length ≤ 700 := mergeSegments_le 700 100 _ [] (by simp) hseg l hl
  rw [← hcl]
  exact hlen

/-- Witness for C4: the single chunk of a short document satisfies the
bound. -/
theorem chunk_size_bound_witness :
    ("hello" : String) ∈ split_text "hello" ∧ ("hello" : String).length ≤ 700 :=
  ⟨by decide, chunk_size_bound "hello" "hello" (by decide)⟩

theorem process_file_contents (embed : String → List ℚ) (convert : String → String)
    (st : BatchState) (name : String) :
    (process_file embed convert st name).document_contents =
      (name, (validate_conversion name (convert name)).1) :: st.document_contents := by
  unfold process_file
  cases hm : add_text_to_chromadb embed (validate_conversion name (convert name)).1
      name st.collection with
  | ok col => rfl
  | error e => rfl

theorem process_file_errors_mono (embed : String → List ℚ)
    (convert : String → String) (st : BatchState) (name : String) (e : String)
    (he : e ∈ st.processing_errors) :
    e ∈ (process_file embed convert st name).processing_errors := by
  unfold process_file
  cases hm : add_text_to_chromadb embed (validate_conversion name (convert name)).1
      name st.collection with
  | ok col =>
    exact List.mem_append_left _ he
  | error msg =>
    exact List.mem_append_left _ (List.mem_append_left _ he)

theorem process_file_warning (embed : String → List ℚ) (convert : String → String)
    (st : BatchState) (name : String)
    (hshort : convert name = "" ∨ (convert name).trim.length < 10) :
    content_warning name ∈ (process_file embed convert st name).processing_errors := by
  have hval : (validate_conversion name (convert name)).2 = [content_warning name] := by
    unfold validate_conversion
    rw [if_pos hshort]
  unfold process_file
  cases hm : add_text_to_chromadb embed (validate_conversion name (convert name)).1
      name st.collection with
  | ok col =>
    apply List.mem_append_right
    rw [hval]
    exact List.mem_singleton_self _
  | error msg =>
    apply List.mem_append_left
    apply List.mem_append_right
    rw [hval]
    exact List.mem_singleton_self _

theorem process_batch_contents_not_mem (embed : String → List ℚ)
    (convert : String → String) (name : String) :
    ∀ (files : List String), name ∉ files → ∀ st : BatchState,
      dictGet (process_batch embed convert files st).document_contents name =
        dictGet st.document_contents name := by
  intro files
  induction files with
  | nil =>
    intro _ st
    rfl
  | cons f fs ih =>
    intro hnot st
    have hne : name ≠ f := fun hc => hnot (hc ▸ List.mem_cons_self f fs)
    have hnot2 : name ∉ fs := fun hc => hnot (List.mem_cons_of_mem f hc)
    show dictGet (process_batch embed convert fs
        (process_file embed convert st f)).document_contents name = _
    rw [ih hnot2 (process_file embed convert st f), process_file_contents,
      dictGet, if_neg (fun hc => hne hc.symm)]

theorem process_batch_errors_mono (embed : String → List ℚ)
    (convert : String → String) (e : String) :
    ∀ (files : List String) (st : BatchState), e ∈ st.processing_errors →
      e ∈ (process_batch embed convert files st).processing_errors := by
  intro files
  induction files with
  | nil =>
    intro st he
    exact he
  | cons f fs ih =>
    intro st he
    exact ih (process_file embed convert st f)
      (process_file_errors_mono embed convert st f e he)

/-- C9. Minimum-content sanity check: for every file of an upload batch
whose converted text is empty or has fewer than 10 characters after
stripping, the stored content is the placeholder marking it as empty or
corrupted and a per-file warning is recorded; every file of the batch
gets its content stored no matter what happens to the other files, so
the failure is never fatal to the batch. -/
theorem empty_content_recovery (embed : String → List ℚ)
    (convert : String → String) (name : String) :
    ∀ (files : List String), name ∈ files → files.Nodup → ∀ st0 : BatchState,
      dictGet (process_batch embed convert files st0).document_contents name =
        some (validate_conversion name (convert name)).1 ∧
      (convert name = "" ∨ (convert name).trim.length < 10 →
        dictGet (process_batch embed convert files st0).document_contents name =
          some (placeholder_document name) ∧
        content_warning name ∈
          (process_batch embed convert files st0).processing_errors) := by
  intro files
  induction files with
  | nil =>
    intro hmem
    exact absurd hmem (List.not_mem_nil name)
  | cons f fs ih =>
    intro hmem hnd st0
    rcases List.mem_cons.mp hmem with heq | hmem2
    · subst heq
      have hnotin : name ∉ fs := (List.nodup_cons.mp hnd).1
      have hstep : process_batch embed convert (name :: fs) st0 =
          process_batch embed convert fs (process_file embed convert st0 name) := rfl
      have hc : dictGet (process_batch embed convert (name :: fs)
            st0).document_contents name =
          some (validate_conversion name (convert name)).1 := by
        rw [hstep, process_batch_contents_not_mem embed convert name fs hnotin,
          process_file_contents, dictGet, if_pos rfl]
      refine ⟨hc, ?_⟩
      intro hshort
      have hval : (validate_conversion name (convert name)).1 =
          placeholder_document name := by
        unfold validate_conversion
        rw [if_pos hshort]
      refine ⟨by rw [hc, hval], ?_⟩
      rw [hstep]
      exact process_batch_errors_mono embed convert (content_warning name) fs _
        (process_file_warning embed convert st0 name hshort)
    · have hnd2 : fs.Nodup := (List.nodup_cons.mp hnd).2
      exact ih hmem2 hnd2 (process_file embed convert st0 f)

/-- Witness for C9: a file converting to the empty string is replaced by
the placeholder, its warning is recorded, and the batch completes. -/
theorem empty_content_recovery_witness :
    dictGet (process_batch (fun _ => []) (fun _ => "") ["a.txt"]
        ⟨[], [], [], []⟩).document_contents "a.txt" =
      some (placeholder_document "a.txt") ∧
    content_warning "a.txt" ∈
      (process_batch (fun _ => []) (fun _ => "") ["a.txt"]
        ⟨[], [], [], []⟩).processing_errors :=
  (empty_content_recovery (fun _ => []) (fun _ => "") "a.txt" ["a.txt"]
    (List.mem_singleton_self _) (by decide) ⟨[], [], [], []⟩).2 (Or.inl rfl)
